import Mathlib

/-!
Shallow embedding of the template substitution engine of
`src/utils/template-processor.js` (repository mkurecka/html-to-image-worker).

Strings are modelled as `List Char`; JavaScript values flowing through the
engine are modelled by the closed inductive `Value` (null and undefined are
both `vNull`; JS objects are ordered key/value lists, mirroring insertion
order of own enumerable keys).  Regex operations of the source are modelled
by explicit scanning functions with the exact matching semantics of the
regexes used there; `escapeRegExp` in the source makes every `String.replace`
pattern a literal string, so replacement is modelled as literal-substring
replacement.  Loops whose iteration count has no a-priori structural bound
are modelled with an explicit fuel parameter (`Option` result, `none` =
fuel exhausted, i.e. the JS loop has not finished within that many
iterations); loops with a structural bound receive a provably sufficient
fuel derived from the string length.
-/

namespace TemplateProcessor

abbrev Chars := List Char

/-- Model of the JavaScript values the engine manipulates.  Numbers are
modelled as integers: every number the claims exercise is integral, and
`String(n)` / `n !== 0` agree with the JS behavior on integral values. -/
inductive Value where
  | vNull
  | vBool (b : Bool)
  | vStr (s : Chars)
  | vNum (n : Int)
  | vArr (elems : List Value)
  | vObj (entries : List (Chars × Value))

abbrev VarMap := List (Chars × Value)

/-- JS `\s` / `String.prototype.trim` whitespace (ASCII range). -/
def isJsSpace (c : Char) : Bool :=
  c == ' ' || c == '\t' || c == '\n' || c == '\r' || c == '\x0b' || c == '\x0c'

/-- JS `String.prototype.trim`. -/
def trimChars (s : Chars) : Chars :=
  ((s.dropWhile isJsSpace).reverse.dropWhile isJsSpace).reverse

/-- Boolean prefix test on character lists. -/
def pfxOf : Chars → Chars → Bool
  | [], _ => true
  | _ :: _, [] => false
  | a :: as, b :: bs => a == b && pfxOf as bs

/-- Boolean substring-occurrence test (JS `indexOf(pat) !== -1`). -/
def hasSubstr (pat : Chars) : Chars → Bool
  | [] => pat.isEmpty
  | c :: rest => pfxOf pat (c :: rest) || hasSubstr pat rest

/-- Split at the first occurrence of `pat`: `some (a, b)` with
`s = a ++ pat ++ b` where `a` contains no occurrence of `pat` starting in it
(JS `indexOf` + `substring`). -/
def splitFirst (pat : Chars) : Chars → Option (Chars × Chars)
  | [] => if pat.isEmpty then some ([], []) else none
  | c :: rest =>
    if pfxOf pat (c :: rest) then some ([], List.drop pat.length (c :: rest))
    else
      match splitFirst pat rest with
      | some (a, b) => some (c :: a, b)
      | none => none

/-- JS `s.replace(pat, rep)` for the first occurrence (`pat` literal). -/
def replaceFirst (pat rep s : Chars) : Chars :=
  match splitFirst pat s with
  | some (a, b) => a ++ rep ++ b
  | none => s

/-- Global literal replacement, fuelled; fuel `s.length` is sufficient since
every step consumes at least one character of `s`. -/
def replaceAllF (pat rep : Chars) : Nat → Chars → Chars
  | 0, s => s
  | _ + 1, [] => []
  | fuel + 1, c :: rest =>
    if pfxOf pat (c :: rest) && !pat.isEmpty then
      rep ++ replaceAllF pat rep fuel (List.drop pat.length (c :: rest))
    else
      c :: replaceAllF pat rep fuel rest

/-- JS `s.replace(new RegExp(escapeRegExp(pat), 'g'), rep)`: global,
non-overlapping, left-to-right literal replacement. -/
def replaceAll (pat rep s : Chars) : Chars := replaceAllF pat rep s.length s

mutual

/-- JS `String(value)` coercion. -/
def valueToString : Value → Chars
  | .vNull => "null".data
  | .vBool b => if b then "true".data else "false".data
  | .vStr s => s
  | .vNum n => (toString n).data
  | .vArr xs => arrToString xs
  | .vObj _ => "[object Object]".data

/-- JS `Array.prototype.toString` = `join(',')`, where null/undefined
elements render as the empty string. -/
def arrToString : List Value → Chars
  | [] => []
  | [.vNull] => []
  | [v] => valueToString v
  | .vNull :: rest => ',' :: arrToString rest
  | v :: rest => valueToString v ++ ',' :: arrToString rest

end

/-- Replacement text used by plain substitution:
`value !== null && value !== undefined ? String(value) : ''`. -/
def substVal : Value → Chars
  | .vNull => []
  | v => valueToString v

/-- First-match lookup, i.e. JS property access `vars[name]`
(`none` = the property is absent / `undefined`). -/
def lookupVar (vars : VarMap) (name : Chars) : Option Value :=
  match vars with
  | [] => none
  | (k, v) :: rest => if k = name then some v else lookupVar rest name

/-- `isTruthy` (template-processor.js lines 226-234). -/
def isTruthy : Value → Bool
  | .vNull => false
  | .vBool b => b
  | .vStr s => !(trimChars s).isEmpty
  | .vNum n => n != 0
  | .vArr xs => decide (0 < xs.length)
  | .vObj kvs => decide (0 < (kvs.map Prod.fst).length)

/-- Truthiness of a property-access result (`undefined` is falsy). -/
def isTruthyU : Option Value → Bool
  | none => false
  | some v => isTruthy v

/-- `Object.entries` of a JS array: index-keyed entries. -/
def indexEntries (i : Nat) : List Value → VarMap
  | [] => []
  | x :: xs => ((toString i).data, x) :: indexEntries (i + 1) xs

/-- Sequential global substitution of `\x7b\x7bkey\x7d\x7d` for every entry,
in entry order — the `Object.entries(...).forEach` replacement loop used both
by `processTemplate` (lines 27-31) and by the object-item branch of
`processArrayBlocks` (lines 108-112). -/
def substPairs (pairs : VarMap) (s : Chars) : Chars :=
  pairs.foldl
    (fun acc kv => replaceAll ('{' :: '{' :: (kv.1 ++ ['}', '}'])) (substVal kv.2) acc) s

/-! ### Conditional (if/unless) block resolution -/

def ifOpenTag (isUnless : Bool) : Chars :=
  if isUnless then "\x7b\x7b#unless".data else "\x7b\x7b#if".data

def ifCloseTag (isUnless : Bool) : Chars :=
  if isUnless then "\x7b\x7b/unless\x7d\x7d".data else "\x7b\x7b/if\x7d\x7d".data

def elseTag : Chars := "\x7b\x7belse\x7d\x7d".data

/-- Depth-aware scan for the matching closing tag (lines 166-186): starting
with the given depth, each further occurrence of `openT` increments and each
`closeT` decrements it; returns `(content-before-matching-close,
rest-after-it)`, or `none` when no matching close exists.  Fuel
`t.length` suffices: every step consumes at least one character. -/
def scanCloseF (openT closeT : Chars) : Nat → Nat → Chars → Option (Chars × Chars)
  | 0, _, _ => none
  | _ + 1, _, [] => none
  | fuel + 1, depth, c :: rest =>
    if pfxOf closeT (c :: rest) then
      if depth ≤ 1 then some ([], List.drop closeT.length (c :: rest))
      else
        match scanCloseF openT closeT fuel (depth - 1) (List.drop closeT.length (c :: rest)) with
        | some (co, af) => some (closeT ++ co, af)
        | none => none
    else if pfxOf openT (c :: rest) then
      match scanCloseF openT closeT fuel (depth + 1) (List.drop openT.length (c :: rest)) with
      | some (co, af) => some (openT ++ co, af)
      | none => none
    else
      match scanCloseF openT closeT fuel depth rest with
      | some (co, af) => some (c :: co, af)
      | none => none

/-- One pass of the `processIfBlocks` outer loop (lines 151-215).  All paths
of the inner loop `break`, so each pass handles only the first opening tag:
`none` means the pass changed nothing (no opening tag, no `\x7d\x7d` ending
the opening tag, or no matching closing tag — malformed blocks are left
as-is), `some s'` is the text with the first block replaced by its selected
branch. -/
def ifStep (vmap : VarMap) (isUnless : Bool) (s : Chars) : Option Chars :=
  match splitFirst (ifOpenTag isUnless) s with
  | none => none
  | some (pre, rest) =>
    match splitFirst ['}', '}'] rest with
    | none => none
    | some (nameRaw, rest2) =>
      match scanCloseF (ifOpenTag isUnless) (ifCloseTag isUnless) rest2.length 1 rest2 with
      | none => none
      | some (blockContent, after) =>
        let branches :=
          match splitFirst elseTag blockContent with
          | some (a, b) => (a, b)
          | none => (blockContent, [])
        let value := lookupVar vmap (trimChars nameRaw)
        let condition := if isUnless then !(isTruthyU value) else isTruthyU value
        some (pre ++ (if condition then branches.1 else branches.2) ++ after)

/-- The `while (changed)` loop of `processIfBlocks`: repeat `ifStep` until it
reports no change.  Each successful step removes at least the opening and
closing tag characters, so the text strictly shrinks and fuel
`s.length + 1` is sufficient. -/
def processIfBlocksF (vmap : VarMap) (isUnless : Bool) : Nat → Chars → Option Chars
  | 0, _ => none
  | fuel + 1, s =>
    match ifStep vmap isUnless s with
    | none => some s
    | some s2 => processIfBlocksF vmap isUnless fuel s2

/-- `processIfBlocks(html, vmap, isUnless)` (lines 141-219). -/
def processIfBlocks (vmap : VarMap) (isUnless : Bool) (s : Chars) : Option Chars :=
  processIfBlocksF vmap isUnless (s.length + 1) s

/-! ### Array (iteration) block expansion -/

def openTagFor (name : Chars) : Chars := '{' :: '{' :: '#' :: (name ++ ['}', '}'])

def closeTagFor (name : Chars) : Chars := '{' :: '{' :: '/' :: (name ++ ['}', '}'])

/-- Attempt to match `\x7b\x7b#([^\x7d\s]+)\x7d\x7d` at the head of `s`:
the greedy character class stops at the first `\x7d` or whitespace, and the
two closing braces must follow immediately (any backtrack of the class ends
on a non-`\x7d` character, so no shorter name can match). -/
def tryArrayOpen (s : Chars) : Option (Chars × Chars) :=
  if pfxOf ['{', '{', '#'] s then
    let t := s.drop 3
    let name := t.takeWhile (fun c => !(c == '}') && !(isJsSpace c))
    if name.isEmpty then none
    else if pfxOf ['}', '}'] (t.drop name.length) then
      some (name, t.drop (name.length + 2))
    else none
  else none

/-- Leftmost match of the array-block regex
`\x7b\x7b#([^\x7d\s]+)\x7d\x7d([\s\S]*?)\x7b\x7b\/\1\x7d\x7d` (line 75):
scanning start positions left to right, a successful start needs a valid
opening tag and, lazily, the first subsequent `\x7b\x7b/name\x7d\x7d`.
Returns `(pre, name, content, after)` with
`s = pre ++ openTagFor name ++ content ++ closeTagFor name ++ after`.
Because the matched text itself would match wherever it occurred, the
leftmost regex match is also the first `indexOf` occurrence of the matched
text, so `String.replace` of the match text rewrites exactly this slice. -/
def findArrayBlock : Chars → Option (Chars × Chars × Chars × Chars)
  | [] => none
  | c :: rest =>
    match
      (match tryArrayOpen (c :: rest) with
       | none => none
       | some (name, body) =>
         match splitFirst (closeTagFor name) body with
         | none => none
         | some (content, after) => some (name, content, after))
    with
    | some (name, content, after) => some ([], name, content, after)
    | none =>
      match findArrayBlock rest with
      | none => none
      | some (pre, name, content, after) => some (c :: pre, name, content, after)

def dotTag : Chars := "\x7b\x7b.\x7d\x7d".data
def indexTag : Chars := "\x7b\x7b@index\x7d\x7d".data
def numberTag : Chars := "\x7b\x7b@number\x7d\x7d".data
def firstTag : Chars := "\x7b\x7b@first\x7d\x7d".data
def lastTag : Chars := "\x7b\x7b@last\x7d\x7d".data

def boolStr (b : Bool) : Chars := if b then "true".data else "false".data

/-- Index-helper substitutions (lines 116-119); `i === length - 1` is
written `i + 1 == total` — the loop only runs with `total ≥ 1`, where the
two coincide. -/
def addIndexHelpers (i total : Nat) (c : Chars) : Chars :=
  replaceAll lastTag (boolStr (i + 1 == total))
    (replaceAll firstTag (boolStr (i == 0))
      (replaceAll numberTag ((toString (i + 1)).data)
        (replaceAll indexTag ((toString i).data) c)))

/-- Per-item body substitution (lines 103-113).  `typeof item !== 'object'`
holds for strings, numbers and booleans (dot substitution); objects and
arrays take the `Object.entries` branch; `null` also has
`typeof === 'object'`, and `Object.entries(null)` throws a TypeError
(`none`). -/
def expandItemContent (blockContent : Chars) (item : Value) : Option Chars :=
  match item with
  | .vNull => none
  | .vStr s => some (replaceAll dotTag s blockContent)
  | .vNum n => some (replaceAll dotTag (valueToString (.vNum n)) blockContent)
  | .vBool b => some (replaceAll dotTag (valueToString (.vBool b)) blockContent)
  | .vObj kvs => some (substPairs kvs blockContent)
  | .vArr xs => some (substPairs (indexEntries 0 xs) blockContent)

/-- The per-element expansion loop (lines 96-122), concatenating the
expanded copies in array order. -/
def expandItemsF (blockContent : Chars) (total : Nat) : Nat → List Value → Option Chars
  | _, [] => some []
  | i, item :: rest =>
    match expandItemContent blockContent item with
    | none => none
    | some ic =>
      match expandItemsF blockContent total (i + 1) rest with
      | none => none
      | some tail => some (addIndexHelpers i total ic ++ tail)

/-- `processArrayBlocks` (lines 65-132), fuelled.  Result layers:
`none` = the `while (changed)` loop has not finished within `fuel`
iterations (the loop has no termination guarantee); `some none` = a
TypeError escaped (array containing `null`); `some (some s)` = returned
normally.  The `if`/`unless` skip branch leaves `changed` false, so after
recursively processing the text following the match the loop exits; the
non-array branch also leaves `changed` false and returns the text as-is. -/
def processArrayBlocksF (vmap : VarMap) : Nat → Chars → Option (Option Chars)
  | 0, _ => none
  | fuel + 1, s =>
    match findArrayBlock s with
    | none => some (some s)
    | some (pre, name, content, after) =>
      if name = "if".data ∨ name = "unless".data then
        match processArrayBlocksF vmap fuel after with
        | none => none
        | some none => some none
        | some (some pa) =>
          some (some (pre ++ openTagFor name ++ content ++ closeTagFor name ++ pa))
      else
        match lookupVar vmap name with
        | some (.vArr arr) =>
          match expandItemsF content arr.length 0 arr with
          | none => some none
          | some expanded => processArrayBlocksF vmap fuel (pre ++ expanded ++ after)
        | _ => some (some s)

/-- `processConditionalBlocks` (lines 43-56): array blocks, then `if`
blocks, then `unless` blocks. -/
def processConditionalBlocks (vmap : VarMap) (fuel : Nat) (s : Chars) :
    Option (Option Chars) :=
  match processArrayBlocksF vmap fuel s with
  | none => none
  | some none => some none
  | some (some s1) =>
    match processIfBlocks vmap false s1 with
    | none => none
    | some s2 =>
      match processIfBlocks vmap true s2 with
      | none => none
      | some s3 => some (some s3)

/-- Errors `processTemplate` can raise. -/
inductive TErr where
  | invalidTemplate
  | typeError
deriving DecidableEq, Repr

/-- Is `typeof variables !== 'object'` or `!variables`?  Null, booleans,
numbers and strings short-circuit `processTemplate` into a no-op; objects
and arrays (both `typeof 'object'` and truthy) proceed. -/
def varsNonObject : Value → Bool
  | .vObj _ => false
  | .vArr _ => false
  | _ => true

/-- `Object.entries(variables)` for the two object-typed cases. -/
def entriesOf : Value → VarMap
  | .vObj kvs => kvs
  | .vArr xs => indexEntries 0 xs
  | _ => []

/-- `processTemplate(html, variables)` (lines 12-34).  `none` = the array
fixed-point loop did not finish within `fuel` iterations. -/
def processTemplate (fuel : Nat) (html : Value) (vmap : Value) :
    Option (Except TErr Chars) :=
  match html with
  | .vStr s =>
    if s.isEmpty then some (.error .invalidTemplate)
    else if varsNonObject vmap then some (.ok s)
    else
      let vars := entriesOf vmap
      match processConditionalBlocks vars fuel s with
      | none => none
      | some none => some (.error .typeError)
      | some (some s1) => some (.ok (substPairs vars s1))
  | _ => some (.error .invalidTemplate)

/-- `processTemplate` applied to a string template and an object mapping —
the shape every template-processing call site in the repository uses. -/
def processTemplateMap (fuel : Nat) (s : Chars) (vars : VarMap) :
    Option (Except TErr Chars) :=
  processTemplate fuel (.vStr s) (.vObj vars)

/-! ### Variable extraction -/

/-- Global scan of the array-block regex (`extractArrayBlocks`,
lines 292-328): successive non-overlapping leftmost matches, each search
resuming after the previous match; matches whose name is a reserved keyword
(`if`, `unless`, `else`) are skipped but still advance the scan.  A block is
recorded as `(name, content)`; the source also computes an `innerVariables`
field per block, which `extractTemplateVariables` never reads, so it is not
modelled.  Fuel: every iteration consumes at least the match length of the
remaining text. -/
def scanArrayBlocksF : Nat → Chars → List (Chars × Chars)
  | 0, _ => []
  | fuel + 1, s =>
    match findArrayBlock s with
    | none => []
    | some (_, name, content, after) =>
      if name = "if".data ∨ name = "unless".data ∨ name = "else".data then
        scanArrayBlocksF fuel after
      else
        (name, content) :: scanArrayBlocksF fuel after

def extractArrayBlocks (s : Chars) : List (Chars × Chars) :=
  scanArrayBlocksF (s.length + 1) s

/-- The matched text of an array block, `\x7b\x7b#name\x7d\x7dcontent\x7b\x7b/name\x7d\x7d`. -/
def arrayFullTag (nc : Chars × Chars) : Chars :=
  openTagFor nc.1 ++ nc.2 ++ closeTagFor nc.1

/-- The template with every array block's matched text collapsed to
`\x7b\x7bname\x7d\x7d` (lines 262-264), one first-occurrence replacement per
recorded block, in block order. -/
def collapsedTemplate (s : Chars) : Chars :=
  (extractArrayBlocks s).foldl
    (fun acc nc => replaceFirst (arrayFullTag nc) ('{' :: '{' :: (nc.1 ++ ['}', '}'])) acc) s

/-- Attempt to match the simple-variable regex
`\x7b\x7b([^#\/@][^\x7d]*)\x7d\x7d` at the head of `s`: one character not in
`#/@`, then a greedy run of non-`\x7d` characters, then the two closing
braces (which must immediately follow the run: any backtrack ends the group
on a non-`\x7d` character). -/
def trySimpleAt : Chars → Option (Chars × Chars)
  | '{' :: '{' :: c :: t =>
    if c == '#' || c == '/' || c == '@' then none
    else
      let run := t.takeWhile (fun d => !(d == '}'))
      match t.drop run.length with
      | '}' :: '}' :: after => some (c :: run, after)
      | _ => none
  | _ => none

/-- Global scan of the simple-variable regex over the collapsed template
(lines 266-275), yielding `match[1].trim()` for each match in order. -/
def scanSimpleVarsF : Nat → Chars → List Chars
  | 0, _ => []
  | _ + 1, [] => []
  | fuel + 1, c :: rest =>
    match trySimpleAt (c :: rest) with
    | some (raw, after) => trimChars raw :: scanSimpleVarsF fuel after
    | none => scanSimpleVarsF fuel rest

def simpleVarsOf (s : Chars) : List Chars := scanSimpleVarsF (s.length + 1) s

/-- The `(?:if|unless)` alternation of the conditional regex. -/
def stripIfUnless (t : Chars) : Option Chars :=
  if pfxOf "if".data t then some (t.drop 2)
  else if pfxOf "unless".data t then some (t.drop 6)
  else none

/-- Attempt to match the conditional regex
`\x7b\x7b#(?:if|unless)\s+([^\x7d]+)\x7d\x7d` at the head of `s`.  With
`w` the maximal whitespace run after the keyword and `q` the distance to the
first `\x7d`, backtracking of `\s+` against `[^\x7d]+` succeeds iff
`w ≥ 1` and `q ≥ 2` and two braces stand at `q`; the group captured by the
first successful split is `t[min w (q-1) .. q)`. -/
def tryCondAt : Chars → Option (Chars × Chars)
  | '{' :: '{' :: '#' :: t =>
    match stripIfUnless t with
    | none => none
    | some t1 =>
      let w := (t1.takeWhile isJsSpace).length
      let q := (t1.takeWhile (fun c => !(c == '}'))).length
      if w = 0 ∨ q < 2 then none
      else
        match t1.drop q with
        | '}' :: '}' :: after =>
          some ((t1.drop (min w (q - 1))).take (q - min w (q - 1)), after)
        | _ => none
  | _ => none

/-- Global scan of the conditional regex over the collapsed template
(lines 277-283), yielding `match[1].trim()` for each match in order.
Unlike simple variables, the names found here are added with no
`else`/`@` filtering. -/
def scanCondVarsF : Nat → Chars → List Chars
  | 0, _ => []
  | _ + 1, [] => []
  | fuel + 1, c :: rest =>
    match tryCondAt (c :: rest) with
    | some (raw, after) => trimChars raw :: scanCondVarsF fuel after
    | none => scanCondVarsF fuel rest

def condVarsOf (s : Chars) : List Chars := scanCondVarsF (s.length + 1) s

/-- JS `Set.prototype.add` on an insertion-ordered set. -/
def setInsert (acc : List Chars) (n : Chars) : List Chars :=
  if n ∈ acc then acc else acc ++ [n]

/-- `extractTemplateVariables` on a (possibly empty) template string
(lines 243-285): array-block names first, then simple variables of the
collapsed template (excluding `else` and `@...`), then conditional guard
names of the collapsed template (unfiltered). -/
def extractTemplateVariablesS (s : Chars) : List Chars :=
  if s.isEmpty then []
  else
    (condVarsOf (collapsedTemplate s)).foldl setInsert
      ((simpleVarsOf (collapsedTemplate s)).foldl
        (fun acc n => if n = "else".data ∨ pfxOf ['@'] n then acc else setInsert acc n)
        ((extractArrayBlocks s).foldl (fun acc nc => setInsert acc nc.1) []))

/-- `extractTemplateVariables(html)`: empty for a non-string or empty
argument (`!html || typeof html !== 'string'`). -/
def extractTemplateVariables (html : Value) : List Chars :=
  match html with
  | .vStr s => extractTemplateVariablesS s
  | _ => []

/-! ### Validation -/

structure ValidationResult where
  isValid : Bool
  missing : List Chars
  provided : List Chars
  required : List Chars
deriving DecidableEq, Repr

/-- The missing-variable predicate of `validateTemplateVariables`
(lines 349-361): absent key, or `undefined`/`null` value, or empty-array
value.  (`varName in vars` failing and `vars[varName]` being
`undefined` both map to `lookupVar = none`/`vNull` here.) -/
def isMissingVar (vars : VarMap) (name : Chars) : Bool :=
  match lookupVar vars name with
  | none => true
  | some .vNull => true
  | some (.vArr xs) => xs.isEmpty
  | some _ => false

/-- `validateTemplateVariables(variables, requiredVars)` (lines 338-369),
applied to an already-parsed mapping (the JSON-string acceptance path is
about `JSON.parse` and is outside this model). -/
def validateTemplateVariables (vars : VarMap) (requiredVars : List Chars) :
    ValidationResult :=
  let missing := requiredVars.filter (fun n => isMissingVar vars n)
  { isValid := missing.isEmpty
    missing := missing
    provided := vars.map Prod.fst
    required := requiredVars }

/-! ### Sanitization -/

/-- The string-escaping chain of `sanitizeValue` (lines 387-401): `&`, `<`,
`>` always; `"` and `'` only when quote escaping is not skipped. -/
def escapeHtml (skipQuoteEscaping : Bool) (s : Chars) : Chars :=
  let s1 := replaceAll ['&'] ("&amp;".data) s
  let s2 := replaceAll ['<'] ("&lt;".data) s1
  let s3 := replaceAll ['>'] ("&gt;".data) s2
  if skipQuoteEscaping then s3
  else replaceAll ['\''] ("&#39;".data) (replaceAll ['"'] ("&quot;".data) s3)

mutual

/-- `sanitizeValue` (lines 386-414): strings are escaped; arrays map their
items (object-typed items through `sanitizeObject`); objects recurse; other
scalars pass through. -/
def sanitizeValue (skip : Bool) : Value → Value
  | .vStr s => .vStr (escapeHtml skip s)
  | .vArr xs => .vArr (sanitizeItems skip xs)
  | .vObj kvs => .vObj (sanitizeEntries skip kvs)
  | .vNull => .vNull
  | .vBool b => .vBool b
  | .vNum n => .vNum n

/-- The `value.map(item => ...)` branch (lines 404-409): items with
`typeof 'object'` other than `null` go through `sanitizeObject` —
including array items, which `Object.entries` turns into an index-keyed
plain object. -/
def sanitizeItems (skip : Bool) : List Value → List Value
  | [] => []
  | .vObj kvs :: rest => .vObj (sanitizeEntries skip kvs) :: sanitizeItems skip rest
  | .vArr ys :: rest => .vObj (sanitizeIdxEntries skip 0 ys) :: sanitizeItems skip rest
  | item :: rest => sanitizeValue skip item :: sanitizeItems skip rest

/-- `sanitizeObject` (lines 416-422) over an entry list. -/
def sanitizeEntries (skip : Bool) : List (Chars × Value) → List (Chars × Value)
  | [] => []
  | (k, v) :: rest => (k, sanitizeValue skip v) :: sanitizeEntries skip rest

/-- `sanitizeObject` applied to a JS array: `Object.entries` yields
index-keyed entries. -/
def sanitizeIdxEntries (skip : Bool) (i : Nat) : List Value → List (Chars × Value)
  | [] => []
  | y :: ys => ((toString i).data, sanitizeValue skip y) :: sanitizeIdxEntries skip (i + 1) ys

end

/-- `sanitizeTemplateVariables(variables, options)` (lines 379-425):
non-object input yields the empty mapping; otherwise `sanitizeObject`
applied to the input. -/
def sanitizeTemplateVariables (vmap : Value) (skipQuoteEscaping : Bool) : VarMap :=
  match vmap with
  | .vObj kvs => sanitizeEntries skipQuoteEscaping kvs
  | .vArr xs => sanitizeIdxEntries skipQuoteEscaping 0 xs
  | _ => []

/-! ### Summary -/

structure TemplateSummary where
  templateVariables : List Chars
  providedVariables : List Chars
  validation : ValidationResult
  processedLength : Nat
  variableCount : Nat

/-- `getTemplateSummary(html, variables)` (lines 442-453).  Note that
`processedLength` is `html.length` — the length of the *input* template;
no substitution happens here. -/
def getTemplateSummary (html : Chars) (vmap : VarMap) : TemplateSummary :=
  let extractedVars := extractTemplateVariablesS html
  { templateVariables := extractedVars
    providedVariables := vmap.map Prod.fst
    validation := validateTemplateVariables vmap extractedVars
    processedLength := html.length
    variableCount := extractedVars.length }

/-! ### Specification-side definitions

These definitions follow the wording of the specification (not the source)
and are compared with the source-derived definitions above. -/

/-- Per-character escaping table as the specification words it: `&`, `<`,
`>` always; `"` and `'` unless quote escaping is skipped; available
characters unchanged. -/
def escChar (skip : Bool) (c : Char) : Chars :=
  if '&' == c then "&amp;".data
  else if '<' == c then "&lt;".data
  else if '>' == c then "&gt;".data
  else if !skip && ('"' == c) then "&quot;".data
  else if !skip && ('\'' == c) then "&#39;".data
  else [c]

/-- Independent character-wise replacement of a whole string. -/
def charMap (f : Char → Chars) : Chars → Chars
  | [] => []
  | c :: rest => f c ++ charMap f rest

/-! ### Helper lemmas -/

theorem pfxOf_trans : ∀ {p q r : Chars}, pfxOf p q = true → pfxOf q r = true →
    pfxOf p r = true
  | [], _, _, _, _ => rfl
  | _ :: _, [], _, h, _ => by simp [pfxOf] at h
  | _ :: _, _ :: _, [], _, h => by simp [pfxOf] at h
  | a :: p, b :: q, c :: r, h1, h2 => by
    simp only [pfxOf, Bool.and_eq_true, beq_iff_eq] at h1 h2 ⊢
    exact ⟨h1.1.trans h2.1, pfxOf_trans h1.2 h2.2⟩

theorem hasSubstr_of_pfx : ∀ {p q : Chars} {s : Chars}, pfxOf p q = true →
    hasSubstr q s = true → hasSubstr p s = true
  | p, q, [], hpq, hs => by
    simp only [hasSubstr, List.isEmpty_iff] at hs
    subst hs
    cases p with
    | nil => rfl
    | cons a t => simp [pfxOf] at hpq
  | p, q, c :: rest, hpq, hs => by
    simp only [hasSubstr, Bool.or_eq_true] at hs ⊢
    rcases hs with h | h
    · exact Or.inl (pfxOf_trans hpq h)
    · exact Or.inr (hasSubstr_of_pfx hpq h)

/-- Contrapositive form used below. -/
theorem hasSubstr_false_of_pfx {p q : Chars} {s : Chars} (hpq : pfxOf p q = true)
    (h : hasSubstr p s = false) : hasSubstr q s = false := by
  cases hq : hasSubstr q s
  · rfl
  · rw [hasSubstr_of_pfx hpq hq] at h
    exact absurd h (by simp)

theorem splitFirst_eq_none : ∀ {pat s : Chars}, hasSubstr pat s = false →
    splitFirst pat s = none
  | pat, [], h => by
    simp only [hasSubstr] at h
    simp [splitFirst, h]
  | pat, c :: rest, h => by
    simp only [hasSubstr, Bool.or_eq_false_iff] at h
    simp [splitFirst, h.1, splitFirst_eq_none h.2]

theorem replaceAllF_eq_self {pat rep : Chars} : ∀ (fuel : Nat) {s : Chars},
    hasSubstr pat s = false → replaceAllF pat rep fuel s = s
  | 0, s, _ => rfl
  | fuel + 1, [], _ => rfl
  | fuel + 1, c :: rest, h => by
    simp only [hasSubstr, Bool.or_eq_false_iff] at h
    simp [replaceAllF, h.1, replaceAllF_eq_self fuel h.2]

theorem replaceAll_eq_self {pat rep s : Chars} (h : hasSubstr pat s = false) :
    replaceAll pat rep s = s :=
  replaceAllF_eq_self _ h

/-- A wrapped key pattern starts with the two opening braces. -/
theorem pfxOf_openBB_pattern (k : Chars) :
    pfxOf ['{', '{'] ('{' :: '{' :: (k ++ ['}', '}'])) = true := rfl

theorem substPairs_eq_self : ∀ {pairs : VarMap} {s : Chars},
    (∀ kv ∈ pairs, hasSubstr ('{' :: '{' :: (kv.1 ++ ['}', '}'])) s = false) →
    substPairs pairs s = s
  | [], s, _ => rfl
  | kv :: rest, s, h => by
    have h1 := h kv (by simp)
    show substPairs rest (replaceAll ('{' :: '{' :: (kv.1 ++ ['}', '}'])) (substVal kv.2) s) = s
    rw [replaceAll_eq_self h1]
    exact substPairs_eq_self (fun kv2 hkv2 => h kv2 (by simp [hkv2]))

/-- With no opening braces anywhere, plain substitution is the identity for
every mapping. -/
theorem substPairs_eq_self_of_noBraces {pairs : VarMap} {s : Chars}
    (h : hasSubstr ['{', '{'] s = false) : substPairs pairs s = s :=
  substPairs_eq_self fun kv _ => hasSubstr_false_of_pfx (pfxOf_openBB_pattern kv.1) h

theorem tryArrayOpen_eq_none {s : Chars} (h : pfxOf ['{', '{'] s = false) :
    tryArrayOpen s = none := by
  have h3 : pfxOf ['{', '{', '#'] s = false := by
    cases hp : pfxOf ['{', '{', '#'] s
    · rfl
    · rw [pfxOf_trans (p := ['{', '{']) (by decide) hp] at h
      exact absurd h (by simp)
  simp [tryArrayOpen, h3]

theorem findArrayBlock_eq_none : ∀ {s : Chars}, hasSubstr ['{', '{'] s = false →
    findArrayBlock s = none
  | [], _ => rfl
  | c :: rest, h => by
    simp only [hasSubstr, Bool.or_eq_false_iff] at h
    simp only [findArrayBlock, tryArrayOpen_eq_none h.1, findArrayBlock_eq_none h.2]

/-! ### Concrete templates and mappings used by the claims -/

def flagName : Chars := "flag".data

/-- The template `\x7b\x7b#if flag\x7d\x7dYES\x7b\x7belse\x7d\x7dNO\x7b\x7b/if\x7d\x7d`. -/
def ifElseTemplate : Chars :=
  "\x7b\x7b#if flag\x7d\x7dYES\x7b\x7belse\x7d\x7dNO\x7b\x7b/if\x7d\x7d".data

/-- The template `\x7b\x7b#unless flag\x7d\x7dYES\x7b\x7belse\x7d\x7dNO\x7b\x7b/unless\x7d\x7d`. -/
def unlessElseTemplate : Chars :=
  "\x7b\x7b#unless flag\x7d\x7dYES\x7b\x7belse\x7d\x7dNO\x7b\x7b/unless\x7d\x7d".data

/-! ### C1 -/

/-- C1: truthiness of conditional resolution.  `null`/absent is falsy; a
boolean is itself; a string is truthy iff its trim is non-empty; a number is
truthy iff non-zero; an array iff non-empty; a non-array object iff it has
at least one own key; and on the template
`\x7b\x7b#if flag\x7d\x7dYES\x7b\x7belse\x7d\x7dNO\x7b\x7b/if\x7d\x7d`,
`processTemplate` yields `NO` for `flag = 0` and `flag = []`, `YES` for
`flag = "x"` and `flag = [1]`; the `unless` form inverts the result. -/
theorem c1_truthiness_rule :
    (isTruthyU none = false ∧ isTruthy .vNull = false)
    ∧ (∀ b, isTruthy (.vBool b) = b)
    ∧ (∀ s, isTruthy (.vStr s) = true ↔ trimChars s ≠ [])
    ∧ (∀ n : Int, isTruthy (.vNum n) = true ↔ n ≠ 0)
    ∧ (∀ xs : List Value, isTruthy (.vArr xs) = true ↔ xs ≠ [])
    ∧ (∀ kvs : List (Chars × Value), isTruthy (.vObj kvs) = true ↔ kvs ≠ [])
    ∧ processTemplateMap 2 ifElseTemplate [(flagName, .vNum 0)] = some (.ok "NO".data)
    ∧ processTemplateMap 2 ifElseTemplate [(flagName, .vStr "x".data)] = some (.ok "YES".data)
    ∧ processTemplateMap 2 ifElseTemplate [(flagName, .vArr [])] = some (.ok "NO".data)
    ∧ processTemplateMap 2 ifElseTemplate [(flagName, .vArr [.vNum 1])] = some (.ok "YES".data)
    ∧ processTemplateMap 2 unlessElseTemplate [(flagName, .vNum 0)] = some (.ok "YES".data)
    ∧ processTemplateMap 2 unlessElseTemplate [(flagName, .vStr "x".data)] = some (.ok "NO".data) := by
  refine ⟨⟨rfl, rfl⟩, fun b => rfl, fun s => ?_, fun n => ?_, fun xs => ?_, fun kvs => ?_,
    rfl, rfl, rfl, rfl, rfl, rfl⟩
  · simp [isTruthy]
  · simp [isTruthy]
  · simp [isTruthy, List.length_pos]
  · simp [isTruthy, List.length_pos]

/-! ### C3 -/

/-- The template `\x7b\x7b#a\x7d\x7d\x7b\x7b.\x7d\x7d\x7b\x7b/a\x7d\x7d`. -/
def divergentTemplate : Chars :=
  "\x7b\x7b#a\x7d\x7d\x7b\x7b.\x7d\x7d\x7b\x7b/a\x7d\x7d".data

/-- A mapping whose single array element is the divergent template itself. -/
def divergentVars : VarMap := [("a".data, .vArr [.vStr divergentTemplate])]

/-- C3: the `while (changed)` loop of `processArrayBlocks` does NOT
terminate on every input.  On `divergentTemplate` with `divergentVars`,
each iteration replaces the matched block with identical text and sets
`changed = true`, so no amount of fuel completes the loop, and
`processTemplate` diverges with it. -/
theorem c3_array_loop_diverges :
    (∀ fuel : Nat, processArrayBlocksF divergentVars fuel divergentTemplate = none)
    ∧ (∀ fuel : Nat, processTemplateMap fuel divergentTemplate divergentVars = none) := by
  have key : ∀ fuel : Nat, processArrayBlocksF divergentVars fuel divergentTemplate = none := by
    intro fuel
    induction fuel with
    | zero => rfl
    | succ n ih =>
      have step : processArrayBlocksF divergentVars (n + 1) divergentTemplate
          = processArrayBlocksF divergentVars n divergentTemplate := rfl
      rw [step, ih]
  refine ⟨key, fun fuel => ?_⟩
  have hcb : processConditionalBlocks divergentVars fuel divergentTemplate = none := by
    unfold processConditionalBlocks
    rw [key fuel]
  have hne : divergentTemplate.isEmpty = false := rfl
  unfold processTemplateMap processTemplate
  simp only [hne, Bool.false_eq_true, if_false, varsNonObject, entriesOf, hcb]

/-! ### C4 and C9: inert templates -/

theorem ifStep_eq_none_of_no_open {vmap : VarMap} {isUnless : Bool} {s : Chars}
    (h : hasSubstr (ifOpenTag isUnless) s = false) : ifStep vmap isUnless s = none := by
  unfold ifStep
  rw [splitFirst_eq_none h]

theorem processIfBlocksF_fix {vmap : VarMap} {isUnless : Bool} {s : Chars} (fuel : Nat)
    (h : ifStep vmap isUnless s = none) :
    processIfBlocksF vmap isUnless (fuel + 1) s = some s := by
  unfold processIfBlocksF
  rw [h]

theorem processIfBlocks_fix {vmap : VarMap} {isUnless : Bool} {s : Chars}
    (h : ifStep vmap isUnless s = none) : processIfBlocks vmap isUnless s = some s := by
  unfold processIfBlocks
  exact processIfBlocksF_fix _ h

/-- A non-empty template without any `\x7b\x7b` marker passes through
`processTemplate` unchanged, for every mapping. -/
theorem processTemplate_inert (vmap : VarMap) (n : Nat) {s : Chars} (h1 : s ≠ [])
    (h2 : hasSubstr ['{', '{'] s = false) :
    processTemplateMap (n + 1) s vmap = some (.ok s) := by
  have hemp : s.isEmpty = false := by
    cases s with
    | nil => exact absurd rfl h1
    | cons c t => rfl
  have hpab : processArrayBlocksF vmap (n + 1) s = some (some s) := by
    unfold processArrayBlocksF
    rw [findArrayBlock_eq_none h2]
  have hif : ifStep vmap false s = none :=
    ifStep_eq_none_of_no_open (hasSubstr_false_of_pfx (by decide) h2)
  have hun : ifStep vmap true s = none :=
    ifStep_eq_none_of_no_open (hasSubstr_false_of_pfx (by decide) h2)
  have hcb : processConditionalBlocks vmap (n + 1) s = some (some s) := by
    unfold processConditionalBlocks
    simp only [hpab, processIfBlocks_fix hif, processIfBlocks_fix hun]
  have hsub : substPairs vmap s = s := substPairs_eq_self_of_noBraces h2
  unfold processTemplateMap processTemplate
  simp only [hemp, Bool.false_eq_true, if_false, varsNonObject, entriesOf, hcb, hsub]

/-- The template `\x7b\x7b#if a\x7d\x7dunterminated`. -/
def malformedTemplate : Chars := "\x7b\x7b#if a\x7d\x7dunterminated".data

/-- A mapping whose key `#if a` collides textually with the malformed
opening tag. -/
def c4BadVars : VarMap := [("#if a".data, .vStr [])]

/-- C4 is false as universally stated: block processing does leave the
malformed text alone, but the plain-substitution phase applies to every key
of the mapping, and the key `#if a` matches the text
`\x7b\x7b#if a\x7d\x7d` inside the malformed block, so the output differs
from the input (no error is raised either way). -/
theorem c4_counterexample :
    processTemplateMap 1 malformedTemplate c4BadVars = some (.ok "unterminated".data)
    ∧ "unterminated".data ≠ malformedTemplate :=
  ⟨rfl, by decide⟩

/-- C4 (amended): a conditional block whose opening tag has no matching
closing tag is treated as inert literal text and `processTemplate` returns
the template `\x7b\x7b#if a\x7d\x7dunterminated` unchanged without
throwing, for every variable mapping none of whose keys `k` makes
`\x7b\x7bk\x7d\x7d` occur textually in that template (in particular for
every mapping of ordinary variable names, which cannot contain `#` or
spaces in a key that would collide with the tag text). -/
theorem c4_malformed_inert (vars : VarMap) (n : Nat)
    (h : ∀ kv ∈ vars,
      hasSubstr ('{' :: '{' :: (kv.1 ++ ['}', '}'])) malformedTemplate = false) :
    processTemplateMap (n + 1) malformedTemplate vars = some (.ok malformedTemplate) := by
  have hpab : processArrayBlocksF vars (n + 1) malformedTemplate
      = some (some malformedTemplate) := by
    unfold processArrayBlocksF
    rw [show findArrayBlock malformedTemplate = none from rfl]
  have hif : ifStep vars false malformedTemplate = none := rfl
  have hun : ifStep vars true malformedTemplate = none := rfl
  have hcb : processConditionalBlocks vars (n + 1) malformedTemplate
      = some (some malformedTemplate) := by
    unfold processConditionalBlocks
    simp only [hpab, processIfBlocks_fix hif, processIfBlocks_fix hun]
  have hsub : substPairs vars malformedTemplate = malformedTemplate := substPairs_eq_self h
  unfold processTemplateMap processTemplate
  simp only [show malformedTemplate.isEmpty = false from rfl, Bool.false_eq_true, if_false,
    varsNonObject, entriesOf, hcb, hsub]

theorem c4_malformed_inert_witness :
    (∀ kv ∈ ([("a".data, Value.vBool true)] : VarMap),
      hasSubstr ('{' :: '{' :: (kv.1 ++ ['}', '}'])) malformedTemplate = false)
    ∧ processTemplateMap 1 malformedTemplate [("a".data, Value.vBool true)]
        = some (.ok malformedTemplate) :=
  ⟨by decide, c4_malformed_inert [("a".data, .vBool true)] 0 (by decide)⟩

/-- The template `\x7b\x7b#if a\x7d\x7dX\x7b\x7b/if\x7d\x7d`. -/
def c9Template : Chars := "\x7b\x7b#if a\x7d\x7dX\x7b\x7b/if\x7d\x7d".data

def c9Vars : VarMap := [("a".data, .vBool false)]

/-- C9 is false as stated: with the template
`\x7b\x7b#if a\x7d\x7dX\x7b\x7b/if\x7d\x7d` and the mapping `a = false`
(whose values contain no `\x7b\x7b...\x7d\x7d` markers), the first
application produces the empty string, and applying `processTemplate` to
the empty string raises `InvalidTemplate` instead of returning it, so
`processTemplate(processTemplate(t, v), v) ≠ processTemplate(t, v)`. -/
theorem c9_counterexample :
    processTemplateMap 1 c9Template c9Vars = some (.ok [])
    ∧ processTemplateMap 1 [] c9Vars = some (.error .invalidTemplate)
    ∧ some (Except.error TErr.invalidTemplate) ≠ some (Except.ok ([] : Chars)) :=
  ⟨rfl, rfl, by simp⟩

/-- C9 (amended): `processTemplate` is idempotent on its own output
whenever that first output is non-empty and contains no further
`\x7b\x7b` marker: re-processing it with the same mapping returns it
unchanged. -/
theorem c9_idempotent (n m : Nat) (t : Chars) (vars : VarMap) (out : Chars)
    (_h1 : processTemplateMap n t vars = some (.ok out))
    (h2 : out ≠ []) (h3 : hasSubstr ['{', '{'] out = false) :
    processTemplateMap (m + 1) out vars = some (.ok out) :=
  processTemplate_inert vars m h2 h3

/-- The template `\x7b\x7ba\x7d\x7d!`. -/
def c9WitnessTemplate : Chars := "\x7b\x7ba\x7d\x7d!".data

def c9WitnessVars : VarMap := [("a".data, .vStr "x".data)]

theorem c9_idempotent_witness :
    processTemplateMap 1 c9WitnessTemplate c9WitnessVars = some (.ok "x!".data)
    ∧ "x!".data ≠ ([] : Chars)
    ∧ hasSubstr ['{', '{'] "x!".data = false
    ∧ processTemplateMap 1 "x!".data c9WitnessVars = some (.ok "x!".data) :=
  ⟨rfl, by decide, by decide,
    c9_idempotent 1 0 c9WitnessTemplate c9WitnessVars "x!".data rfl (by decide) (by decide)⟩

/-! ### C2 -/

/-- The template
`\x7b\x7b#items\x7d\x7d\x7b\x7b#if x\x7d\x7d\x7b\x7b.\x7d\x7d\x7b\x7b/if\x7d\x7d\x7b\x7b/items\x7d\x7d`:
a conditional inside an iteration block whose body references the current
element. -/
def iterIfTemplate : Chars :=
  "\x7b\x7b#items\x7d\x7d\x7b\x7b#if x\x7d\x7d\x7b\x7b.\x7d\x7d\x7b\x7b/if\x7d\x7d\x7b\x7b/items\x7d\x7d".data

def iterIfVars : VarMap := [("items".data, .vArr [.vStr "A".data]), ("x".data, .vBool true)]

/-- C2: for every valid template and mapping, `processTemplate` is the
fixed composition array-block expansion, then `if` resolution run to its
own fixed point, then `unless` resolution, then plain substitution last —
and on `iterIfTemplate` the conditional inside the iterated content is
resolved on the already-expanded per-element value, yielding `A`. -/
theorem c2_phase_order :
    (∀ (fuel : Nat) (s : Chars) (vars : VarMap) (s1 s2 s3 : Chars),
      s ≠ [] →
      processArrayBlocksF vars fuel s = some (some s1) →
      processIfBlocks vars false s1 = some s2 →
      processIfBlocks vars true s2 = some s3 →
      processTemplateMap fuel s vars = some (.ok (substPairs vars s3)))
    ∧ processTemplateMap 3 iterIfTemplate iterIfVars = some (.ok "A".data) := by
  constructor
  · intro fuel s vars s1 s2 s3 hne h1 h2 h3
    have hemp : s.isEmpty = false := by
      cases s with
      | nil => exact absurd rfl hne
      | cons c t => rfl
    have hcb : processConditionalBlocks vars fuel s = some (some s3) := by
      unfold processConditionalBlocks
      simp only [h1, h2, h3]
    unfold processTemplateMap processTemplate
    simp only [hemp, Bool.false_eq_true, if_false, varsNonObject, entriesOf, hcb]
  · rfl

theorem c2_phase_order_witness :
    iterIfTemplate ≠ []
    ∧ processArrayBlocksF iterIfVars 3 iterIfTemplate
        = some (some "\x7b\x7b#if x\x7d\x7dA\x7b\x7b/if\x7d\x7d".data)
    ∧ processIfBlocks iterIfVars false "\x7b\x7b#if x\x7d\x7dA\x7b\x7b/if\x7d\x7d".data
        = some "A".data
    ∧ processIfBlocks iterIfVars true "A".data = some "A".data
    ∧ processTemplateMap 3 iterIfTemplate iterIfVars
        = some (.ok (substPairs iterIfVars "A".data)) :=
  ⟨by decide, rfl, rfl, rfl,
    c2_phase_order.1 3 iterIfTemplate iterIfVars
      "\x7b\x7b#if x\x7d\x7dA\x7b\x7b/if\x7d\x7d".data "A".data "A".data
      (by decide) rfl rfl rfl⟩

/-! ### C8 -/

/-- C8: `processTemplate` yields `InvalidTemplate` for every missing, empty
or non-string template argument and only for those; with a valid template
and a non-object mapping argument (null, boolean, number or string — arrays
and objects have `typeof 'object'` and proceed) it returns the template
unchanged rather than erroring. -/
theorem c8_invalid_template :
    (∀ (fuel : Nat) (v : Value),
      processTemplate fuel (.vStr []) v = some (.error .invalidTemplate))
    ∧ (∀ (fuel : Nat) (v : Value),
      processTemplate fuel .vNull v = some (.error .invalidTemplate))
    ∧ (∀ (fuel : Nat) (v : Value) (b : Bool),
      processTemplate fuel (.vBool b) v = some (.error .invalidTemplate))
    ∧ (∀ (fuel : Nat) (v : Value) (n : Int),
      processTemplate fuel (.vNum n) v = some (.error .invalidTemplate))
    ∧ (∀ (fuel : Nat) (v : Value) (xs : List Value),
      processTemplate fuel (.vArr xs) v = some (.error .invalidTemplate))
    ∧ (∀ (fuel : Nat) (v : Value) (kvs : List (Chars × Value)),
      processTemplate fuel (.vObj kvs) v = some (.error .invalidTemplate))
    ∧ (∀ (fuel : Nat) (s : Chars), s ≠ [] →
      processTemplate fuel (.vStr s) .vNull = some (.ok s))
    ∧ (∀ (fuel : Nat) (s : Chars) (b : Bool), s ≠ [] →
      processTemplate fuel (.vStr s) (.vBool b) = some (.ok s))
    ∧ (∀ (fuel : Nat) (s : Chars) (n : Int), s ≠ [] →
      processTemplate fuel (.vStr s) (.vNum n) = some (.ok s))
    ∧ (∀ (fuel : Nat) (s : Chars) (w : Chars), s ≠ [] →
      processTemplate fuel (.vStr s) (.vStr w) = some (.ok s))
    ∧ (∀ (fuel : Nat) (s : Chars) (v : Value), s ≠ [] →
      processTemplate fuel (.vStr s) v ≠ some (.error .invalidTemplate)) := by
  have hemp : ∀ {s : Chars}, s ≠ [] → s.isEmpty = false := by
    intro s h
    cases s with
    | nil => exact absurd rfl h
    | cons c t => rfl
  refine ⟨fun fuel v => rfl, fun fuel v => rfl, fun fuel v b => rfl, fun fuel v n => rfl,
    fun fuel v xs => rfl, fun fuel v kvs => rfl, ?_, ?_, ?_, ?_, ?_⟩
  · intro fuel s h
    unfold processTemplate
    simp [hemp h, varsNonObject]
  · intro fuel s b h
    unfold processTemplate
    simp [hemp h, varsNonObject]
  · intro fuel s n h
    unfold processTemplate
    simp [hemp h, varsNonObject]
  · intro fuel s w h
    unfold processTemplate
    simp [hemp h, varsNonObject]
  · intro fuel s v h
    unfold processTemplate
    simp only [hemp h, Bool.false_eq_true, if_false]
    cases hvo : varsNonObject v
    · simp only [Bool.false_eq_true, if_false]
      cases hcb : processConditionalBlocks (entriesOf v) fuel s with
      | none => simp [hcb]
      | some o =>
        cases o with
        | none => simp [hcb]
        | some s1 => simp [hcb]
    · simp

theorem c8_invalid_template_witness :
    "T".data ≠ ([] : Chars)
    ∧ processTemplate 1 (.vStr "T".data) .vNull = some (.ok "T".data)
    ∧ processTemplate 1 (.vStr "T".data) (.vNum 7) ≠ some (.error .invalidTemplate) :=
  ⟨by decide,
    c8_invalid_template.2.2.2.2.2.2.1 1 "T".data (by decide),
    c8_invalid_template.2.2.2.2.2.2.2.2.2.2 1 "T".data (.vNum 7) (by decide)⟩

/-! ### C5 -/

theorem isMissingVar_iff (vars : VarMap) (name : Chars) :
    isMissingVar vars name = true ↔
      lookupVar vars name = none ∨ lookupVar vars name = some .vNull
        ∨ lookupVar vars name = some (.vArr []) := by
  unfold isMissingVar
  cases h : lookupVar vars name with
  | none => simp
  | some v =>
    cases v with
    | vNull => simp
    | vBool b => simp
    | vStr s => simp
    | vNum n => simp
    | vArr xs => simp [List.isEmpty_iff]
    | vObj kvs => simp

/-- C5: `validateTemplateVariables` lists a required name as missing
exactly when it is absent, `null`/`undefined`, or an empty array; an empty
string is not missing; `isValid` holds iff nothing is missing; `provided`
are the mapping's keys and `required` echoes the input list. -/
theorem c5_validate_spec :
    (∀ (vars : VarMap) (req : List Chars) (name : Chars),
      name ∈ (validateTemplateVariables vars req).missing ↔
        name ∈ req ∧ (lookupVar vars name = none ∨ lookupVar vars name = some .vNull
          ∨ lookupVar vars name = some (.vArr [])))
    ∧ (∀ (vars : VarMap) (req : List Chars),
      (validateTemplateVariables vars req).isValid = true ↔
        (validateTemplateVariables vars req).missing = [])
    ∧ (∀ (vars : VarMap) (req : List Chars),
      (validateTemplateVariables vars req).provided = vars.map Prod.fst)
    ∧ (∀ (vars : VarMap) (req : List Chars),
      (validateTemplateVariables vars req).required = req)
    ∧ (validateTemplateVariables [("x".data, .vStr [])] ["x".data]).isValid = true
    ∧ (validateTemplateVariables [("items".data, .vArr [])] ["items".data]).isValid = false
    ∧ "items".data ∈ (validateTemplateVariables [("items".data, .vArr [])] ["items".data]).missing := by
  refine ⟨?_, ?_, fun vars req => rfl, fun vars req => rfl, rfl, rfl, ?_⟩
  · intro vars req name
    unfold validateTemplateVariables
    simp [List.mem_filter, isMissingVar_iff]
  · intro vars req
    unfold validateTemplateVariables
    simp [List.isEmpty_iff]
  · decide

/-! ### C6 -/

theorem replaceAll_cons_single (a : Char) (rep : Chars) (c : Char) (rest : Chars) :
    replaceAll [a] rep (c :: rest)
      = (if a == c then rep else [c]) ++ replaceAll [a] rep rest := by
  show replaceAllF [a] rep (rest.length + 1) (c :: rest)
      = (if a == c then rep else [c]) ++ replaceAllF [a] rep rest.length rest
  cases h : a == c
  · simp [replaceAllF, pfxOf, h]
  · simp [replaceAllF, pfxOf, h]

theorem replaceAll_single_eq_charMap (a : Char) (rep : Chars) : ∀ s : Chars,
    replaceAll [a] rep s = charMap (fun c => if a == c then rep else [c]) s
  | [] => rfl
  | c :: rest => by
    rw [replaceAll_cons_single, replaceAll_single_eq_charMap a rep rest]
    rfl

theorem charMap_append (f : Char → Chars) : ∀ x y : Chars,
    charMap f (x ++ y) = charMap f x ++ charMap f y
  | [], y => rfl
  | c :: rest, y => by
    simp [charMap, charMap_append f rest y]

theorem charMap_comp (g f : Char → Chars) : ∀ s : Chars,
    charMap g (charMap f s) = charMap (fun c => charMap g (f c)) s
  | [] => rfl
  | c :: rest => by
    simp [charMap, charMap_append, charMap_comp g f rest]

theorem charMap_congr {f g : Char → Chars} (h : ∀ c, f c = g c) : ∀ s : Chars,
    charMap f s = charMap g s
  | [] => rfl
  | c :: rest => by
    simp [charMap, h c, charMap_congr h rest]

/-- The source's chained global replacements act as one independent
per-character replacement table — the wording of the specification. -/
theorem escapeHtml_eq_charMap (skip : Bool) (s : Chars) :
    escapeHtml skip s = charMap (escChar skip) s := by
  cases skip
  · show replaceAll ['\''] ("&#39;".data)
        (replaceAll ['"'] ("&quot;".data)
          (replaceAll ['>'] ("&gt;".data)
            (replaceAll ['<'] ("&lt;".data)
              (replaceAll ['&'] ("&amp;".data) s)))) = charMap (escChar false) s
    simp only [replaceAll_single_eq_charMap, charMap_comp]
    refine charMap_congr (fun c => ?_) s
    by_cases h1 : '&' = c
    · subst h1; decide
    by_cases h2 : '<' = c
    · subst h2; decide
    by_cases h3 : '>' = c
    · subst h3; decide
    by_cases h4 : '"' = c
    · subst h4; decide
    by_cases h5 : '\'' = c
    · subst h5; decide
    have n1 := beq_eq_false_iff_ne.mpr h1
    have n2 := beq_eq_false_iff_ne.mpr h2
    have n3 := beq_eq_false_iff_ne.mpr h3
    have n4 := beq_eq_false_iff_ne.mpr h4
    have n5 := beq_eq_false_iff_ne.mpr h5
    simp [escChar, charMap, h1, h2, h3, h4, h5, n1, n2, n3, n4, n5]
  · show replaceAll ['>'] ("&gt;".data)
        (replaceAll ['<'] ("&lt;".data)
          (replaceAll ['&'] ("&amp;".data) s)) = charMap (escChar true) s
    simp only [replaceAll_single_eq_charMap, charMap_comp]
    refine charMap_congr (fun c => ?_) s
    by_cases h1 : '&' = c
    · subst h1; decide
    by_cases h2 : '<' = c
    · subst h2; decide
    by_cases h3 : '>' = c
    · subst h3; decide
    have n1 := beq_eq_false_iff_ne.mpr h1
    have n2 := beq_eq_false_iff_ne.mpr h2
    have n3 := beq_eq_false_iff_ne.mpr h3
    simp [escChar, charMap, h1, h2, h3, n1, n2, n3]

/-- C6: sanitization walks every nesting depth — top-level values, array
elements and nested-object properties — escaping every string value through
the per-character table (`&`, `<`, `>` always, quotes unless skipped) and
passing non-string scalars through unchanged; in particular
`sanitizeTemplateVariables(\x7bx: "<script>"\x7d).x = "&lt;script&gt;"`. -/
theorem c6_sanitize_spec :
    (∀ (skip : Bool) (s : Chars),
      sanitizeValue skip (.vStr s) = .vStr (charMap (escChar skip) s))
    ∧ (∀ skip : Bool, sanitizeValue skip .vNull = .vNull)
    ∧ (∀ (skip : Bool) (b : Bool), sanitizeValue skip (.vBool b) = .vBool b)
    ∧ (∀ (skip : Bool) (n : Int), sanitizeValue skip (.vNum n) = .vNum n)
    ∧ (∀ (skip : Bool) (kvs : List (Chars × Value)),
      sanitizeTemplateVariables (.vObj kvs) skip = sanitizeEntries skip kvs)
    ∧ (∀ (skip : Bool) (k : Chars) (v : Value) (kvs : List (Chars × Value)),
      sanitizeEntries skip ((k, v) :: kvs)
        = (k, sanitizeValue skip v) :: sanitizeEntries skip kvs)
    ∧ (∀ (skip : Bool) (xs : List Value),
      sanitizeValue skip (.vArr xs) = .vArr (sanitizeItems skip xs))
    ∧ (∀ (skip : Bool) (s : Chars) (rest : List Value),
      sanitizeItems skip (.vStr s :: rest)
        = .vStr (charMap (escChar skip) s) :: sanitizeItems skip rest)
    ∧ sanitizeTemplateVariables (.vObj [("x".data, .vStr "<script>".data)]) false
        = [("x".data, .vStr "&lt;script&gt;".data)] := by
  refine ⟨fun skip s => ?_, fun skip => rfl, fun skip b => rfl, fun skip n => rfl,
    fun skip kvs => rfl, fun skip k v kvs => rfl, fun skip xs => rfl,
    fun skip s rest => ?_, rfl⟩
  · show Value.vStr (escapeHtml skip s) = .vStr (charMap (escChar skip) s)
    rw [escapeHtml_eq_charMap]
  · show Value.vStr (escapeHtml skip s) :: sanitizeItems skip rest
        = Value.vStr (charMap (escChar skip) s) :: sanitizeItems skip rest
    rw [escapeHtml_eq_charMap]

/-! ### C7 -/

theorem mem_setInsert {acc : List Chars} {n x : Chars} :
    x ∈ setInsert acc n ↔ x ∈ acc ∨ x = n := by
  unfold setInsert
  split
  · rename_i h
    constructor
    · exact Or.inl
    · rintro (hx | rfl)
      · exact hx
      · exact h
  · simp

theorem nodup_setInsert {acc : List Chars} {n : Chars} (h : acc.Nodup) :
    (setInsert acc n).Nodup := by
  unfold setInsert
  split
  · exact h
  · rename_i hn
    simp [List.nodup_append, h, hn]

theorem mem_foldl_setInsert : ∀ (l acc : List Chars) (x : Chars),
    x ∈ l.foldl setInsert acc ↔ x ∈ acc ∨ x ∈ l
  | [], acc, x => by simp
  | n :: rest, acc, x => by
    simp only [List.foldl_cons, mem_foldl_setInsert rest, mem_setInsert, List.mem_cons]
    tauto

theorem mem_foldl_setInsert_fst : ∀ (l : List (Chars × Chars)) (acc : List Chars) (x : Chars),
    x ∈ l.foldl (fun a nc => setInsert a nc.1) acc ↔ x ∈ acc ∨ x ∈ l.map Prod.fst
  | [], acc, x => by simp
  | nc :: rest, acc, x => by
    simp only [List.foldl_cons, mem_foldl_setInsert_fst rest, mem_setInsert, List.map_cons,
      List.mem_cons]
    tauto

theorem mem_foldl_setInsert_guard : ∀ (l acc : List Chars) (x : Chars),
    x ∈ l.foldl (fun a n => if n = "else".data ∨ pfxOf ['@'] n then a else setInsert a n) acc ↔
      x ∈ acc ∨ (x ∈ l ∧ ¬(x = "else".data ∨ pfxOf ['@'] x = true))
  | [], acc, x => by simp
  | n :: rest, acc, x => by
    simp only [List.foldl_cons, List.mem_cons]
    by_cases hn : n = "else".data ∨ (pfxOf ['@'] n : Bool) = true
    · rw [if_pos hn, mem_foldl_setInsert_guard rest acc x]
      constructor
      · rintro (h | h)
        · exact Or.inl h
        · exact Or.inr ⟨Or.inr h.1, h.2⟩
      · rintro (h | ⟨hx, hne⟩)
        · exact Or.inl h
        · rcases hx with rfl | hx
          · exact absurd hn hne
          · exact Or.inr ⟨hx, hne⟩
    · rw [if_neg hn, mem_foldl_setInsert_guard rest _ x]
      simp only [mem_setInsert]
      constructor
      · rintro ((h | rfl) | h)
        · exact Or.inl h
        · exact Or.inr ⟨Or.inl rfl, hn⟩
        · exact Or.inr ⟨Or.inr h.1, h.2⟩
      · rintro (h | ⟨hx, hne⟩)
        · exact Or.inl (Or.inl h)
        · rcases hx with rfl | hx
          · exact Or.inl (Or.inr rfl)
          · exact Or.inr ⟨hx, hne⟩

theorem nodup_foldl_setInsert : ∀ (l acc : List Chars), acc.Nodup →
    (l.foldl setInsert acc).Nodup
  | [], _, h => h
  | _ :: rest, _, h => nodup_foldl_setInsert rest _ (nodup_setInsert h)

theorem nodup_foldl_setInsert_fst : ∀ (l : List (Chars × Chars)) (acc : List Chars),
    acc.Nodup → (l.foldl (fun a nc => setInsert a nc.1) acc).Nodup
  | [], _, h => h
  | _ :: rest, _, h => nodup_foldl_setInsert_fst rest _ (nodup_setInsert h)

theorem nodup_foldl_setInsert_guard : ∀ (l acc : List Chars), acc.Nodup →
    (l.foldl (fun a n => if n = "else".data ∨ pfxOf ['@'] n then a else setInsert a n)
      acc).Nodup
  | [], _, h => h
  | n :: rest, acc, h => by
    simp only [List.foldl_cons]
    split
    · exact nodup_foldl_setInsert_guard rest acc h
    · exact nodup_foldl_setInsert_guard rest _ (nodup_setInsert h)

/-- The template `\x7b\x7b#if @x\x7d\x7dy\x7b\x7b/if\x7d\x7d`. -/
def c7CounterTemplate : Chars := "\x7b\x7b#if @x\x7d\x7dy\x7b\x7b/if\x7d\x7d".data

/-- C7 is false as stated: conditional guard names are added with no
`@`/`else` filtering (lines 280-282 of the source apply no filter), so for
the template `\x7b\x7b#if @x\x7d\x7dy\x7b\x7b/if\x7d\x7d` the extracted
list contains the `@`-prefixed name `@x`. -/
theorem c7_counterexample :
    extractTemplateVariables (.vStr c7CounterTemplate) = ["@x".data]
    ∧ "@x".data ∈ extractTemplateVariables (.vStr c7CounterTemplate)
    ∧ pfxOf ['@'] "@x".data = true :=
  ⟨rfl, by decide, rfl⟩

/-- C7 (amended): `extractTemplateVariables` returns a duplicate-free list
(in algorithm-discovery order), empty for empty or non-string input, whose
members are exactly: every array-block name, every plain-placeholder name
of the array-collapsed template other than `else` and names starting with
`@`, and every `if`/`unless` guard name of the collapsed template — guard
names unfiltered.  Names appearing only inside an iteration block's body
are collapsed away and hence not returned, as the concrete
`\x7b\x7b#people\x7d\x7d...\x7b\x7b/people\x7d\x7d` instance shows. -/
theorem c7_extract_spec :
    (extractTemplateVariables (.vStr []) = [])
    ∧ (extractTemplateVariables .vNull = [])
    ∧ (∀ b, extractTemplateVariables (.vBool b) = [])
    ∧ (∀ n : Int, extractTemplateVariables (.vNum n) = [])
    ∧ (∀ xs, extractTemplateVariables (.vArr xs) = [])
    ∧ (∀ kvs, extractTemplateVariables (.vObj kvs) = [])
    ∧ (∀ s : Chars, (extractTemplateVariablesS s).Nodup)
    ∧ (∀ s x : Chars,
      x ∈ extractTemplateVariablesS s ↔
        x ∈ (extractArrayBlocks s).map Prod.fst
        ∨ (x ∈ simpleVarsOf (collapsedTemplate s)
            ∧ ¬(x = "else".data ∨ pfxOf ['@'] x = true))
        ∨ x ∈ condVarsOf (collapsedTemplate s))
    ∧ extractTemplateVariablesS
        ("\x7b\x7b#people\x7d\x7d\x7b\x7bname\x7d\x7d-\x7b\x7bage\x7d\x7d \x7b\x7b/people\x7d\x7d".data)
        = ["people".data] := by
  refine ⟨rfl, rfl, fun b => rfl, fun n => rfl, fun xs => rfl, fun kvs => rfl, ?_, ?_, rfl⟩
  · intro s
    unfold extractTemplateVariablesS
    split
    · exact List.nodup_nil
    · exact nodup_foldl_setInsert _ _ (nodup_foldl_setInsert_guard _ _
        (nodup_foldl_setInsert_fst _ _ List.nodup_nil))
  · intro s x
    unfold extractTemplateVariablesS
    split
    · rename_i hs
      have hnil : s = [] := by simpa [List.isEmpty_iff] using hs
      subst hnil
      simp [extractArrayBlocks, scanArrayBlocksF, findArrayBlock, simpleVarsOf,
        scanSimpleVarsF, condVarsOf, scanCondVarsF, collapsedTemplate]
    · rw [mem_foldl_setInsert, mem_foldl_setInsert_guard, mem_foldl_setInsert_fst]
      simp only [List.not_mem_nil, false_or]
      tauto

/-! ### C10 -/

/-- C10: `getTemplateSummary` performs no substitution: `processedLength`
is the length of the input template itself, and `variableCount` is the
length of its `templateVariables` list. -/
theorem c10_summary_no_substitution (html : Chars) (vmap : VarMap) :
    (getTemplateSummary html vmap).processedLength = html.length
    ∧ (getTemplateSummary html vmap).variableCount
        = (getTemplateSummary html vmap).templateVariables.length
    ∧ (getTemplateSummary html vmap).templateVariables = extractTemplateVariablesS html
    ∧ (getTemplateSummary html vmap).validation
        = validateTemplateVariables vmap (extractTemplateVariablesS html) :=
  ⟨rfl, rfl, rfl, rfl⟩

end TemplateProcessor
